import Mathlib

/-!
Shallow embedding of the character-generation program in player.py: the
Player class (abilities dictionary, height, weight, class_, languages, race),
its methods set_abilities, set_race and set_racial_traits, and the top-level
setup_player function, together with theorems about their behaviour.

Randomness is modelled as a stream of raw natural-number draws with a cursor;
each library call (random.randint, random._randbelow, and through the latter
random.shuffle and random.choice) consumes one draw.  Interactive input
(input()) is modelled as a scripted list of values consumed in order, and
printed output (print()) as an accumulated list of strings.  The abilities
dictionary is modelled as an insertion-ordered association list, matching
Python dict semantics (updating an existing key keeps its position, a new
key is appended).  Python integers are modelled as Int.
-/

/-- State of the pseudo-random generator: a stream of raw draws and a cursor.
Each generator call reads the draw at the cursor and advances the cursor. -/
structure RNG where
  f : Nat → Nat
  k : Nat

/-- Embeds random.randint(1, 6): the next raw draw, read as a die value.
Theorems carry the hypothesis that every draw lies in 1..6. -/
def randint16 (r : RNG) : Int × RNG :=
  ((r.f r.k : Int), ⟨r.f, r.k + 1⟩)

/-- Embeds random._randbelow(n), the primitive behind random.shuffle and
random.choice: a draw reduced into [0, n). -/
def randbelow (r : RNG) (n : Nat) : Nat × RNG :=
  (r.f r.k % n, ⟨r.f, r.k + 1⟩)

/-- The raw draw stream only produces die values 1..6. -/
def DiceOK (r : RNG) : Prop :=
  ∀ i : Nat, 1 ≤ r.f i ∧ r.f i ≤ 6

/-- Embeds rolls = [random.randint(1, 6) for _ in range(4)]. -/
def rollFour (r : RNG) : List Int × RNG :=
  let (a, r1) := randint16 r
  let (b, r2) := randint16 r1
  let (c, r3) := randint16 r2
  let (d, r4) := randint16 r3
  ([a, b, c, d], r4)

/-- Embeds the single reroll pass of generate_score:
for i, v in enumerate(rolls): if v == 1: rolls[i] = random.randint(1, 6).
Each original value showing 1 is replaced once; the replacement itself is
not examined again. -/
def rerollOnes : List Int → RNG → List Int × RNG
  | [], r => ([], r)
  | v :: vs, r =>
    if v = 1 then
      let (w, r1) := randint16 r
      let (ws, r2) := rerollOnes vs r1
      (w :: ws, r2)
    else
      let (ws, r1) := rerollOnes vs r
      (v :: ws, r1)

/-- Embeds the helper generate_score defined inside Player.set_abilities:
roll four dice, reroll each die showing 1 once in a single pass, then
return sum(sorted(rolls)[1:]) — drop the lowest, sum the remaining three. -/
def generate_score (r : RNG) : Int × RNG :=
  let (rolls, r1) := rollFour r
  let (rolls2, r2) := rerollOnes rolls r1
  (((List.insertionSort (· ≤ ·) rolls2).drop 1).sum, r2)

/-- Embeds scores = [generate_score() for _ in range(6)] (generalized count). -/
def generate_scores (r : RNG) : Nat → List Int × RNG
  | 0 => ([], r)
  | Nat.succ n =>
    let (s, r1) := generate_score r
    let (ss, r2) := generate_scores r1 n
    (s :: ss, r2)

theorem rng_advance_dice {r : RNG} (h : DiceOK r) : DiceOK (randint16 r).2 :=
  h

theorem mem_rollFour (r : RNG) (h : DiceOK r) :
    ∀ x ∈ (rollFour r).1, 1 ≤ x ∧ x ≤ 6 := by
  intro x hx
  simp only [rollFour, randint16, List.mem_cons, List.not_mem_nil, or_false] at hx
  rcases hx with h1 | h1 | h1 | h1 <;> subst h1 <;>
    exact ⟨by exact_mod_cast (h _).1, by exact_mod_cast (h _).2⟩

theorem rerollOnes_f : ∀ (l : List Int) (r : RNG), ((rerollOnes l r).2).f = r.f := by
  intro l
  induction l with
  | nil => intro r; rfl
  | cons v vs ih =>
    intro r
    by_cases hv : v = 1 <;> simp only [rerollOnes, hv, if_true, if_false, randint16] <;>
      exact ih _

theorem length_rerollOnes : ∀ (l : List Int) (r : RNG),
    ((rerollOnes l r).1).length = l.length := by
  intro l
  induction l with
  | nil => intro r; rfl
  | cons v vs ih =>
    intro r
    by_cases hv : v = 1 <;>
      simp only [rerollOnes, hv, if_true, if_false, List.length_cons] <;>
      rw [ih]

theorem mem_rerollOnes : ∀ (l : List Int) (r : RNG), DiceOK r →
    (∀ x ∈ l, 1 ≤ x ∧ x ≤ 6) → ∀ x ∈ (rerollOnes l r).1, 1 ≤ x ∧ x ≤ 6 := by
  intro l
  induction l with
  | nil => intro r _ _ x hx; simp [rerollOnes] at hx
  | cons v vs ih =>
    intro r hr hl x hx
    by_cases hv : v = 1
    · simp only [rerollOnes, hv, if_true, randint16, List.mem_cons] at hx
      rcases hx with h1 | h1
      · subst h1
        exact ⟨by exact_mod_cast (hr _).1, by exact_mod_cast (hr _).2⟩
      · exact ih ⟨r.f, r.k + 1⟩ hr (fun y hy => hl y (List.mem_cons_of_mem _ hy)) x h1
    · simp only [rerollOnes, hv, if_false, List.mem_cons] at hx
      rcases hx with h1 | h1
      · subst h1; exact hl x (List.mem_cons_self _ _)
      · exact ih _ hr (fun y hy => hl y (List.mem_cons_of_mem _ hy)) x h1

theorem sum_bounds : ∀ (l : List Int), (∀ x ∈ l, 1 ≤ x ∧ x ≤ 6) →
    (l.length : Int) ≤ l.sum ∧ l.sum ≤ 6 * l.length := by
  intro l
  induction l with
  | nil => intro _; simp
  | cons a t ih =>
    intro h
    have ha := h a (List.mem_cons_self _ _)
    have ht := ih (fun y hy => h y (List.mem_cons_of_mem _ hy))
    simp only [List.sum_cons, List.length_cons]
    push_cast
    constructor
    · linarith [ht.1]
    · linarith [ht.2]

theorem generate_score_range (r : RNG) (h : DiceOK r) :
    3 ≤ (generate_score r).1 ∧ (generate_score r).1 ≤ 18 := by
  have hf : DiceOK (rollFour r).2 := h
  have hmem0 : ∀ x ∈ (rollFour r).1, 1 ≤ x ∧ x ≤ 6 := mem_rollFour r h
  have hmem : ∀ x ∈ (rerollOnes (rollFour r).1 (rollFour r).2).1, 1 ≤ x ∧ x ≤ 6 :=
    mem_rerollOnes _ _ hf hmem0
  have hlen : (rerollOnes (rollFour r).1 (rollFour r).2).1.length = 4 := by
    rw [length_rerollOnes]; rfl
  have hmem2 : ∀ x ∈ (List.insertionSort (· ≤ ·)
      (rerollOnes (rollFour r).1 (rollFour r).2).1).drop 1, 1 ≤ x ∧ x ≤ 6 := by
    intro x hx
    have hx2 := List.drop_subset 1 _ hx
    rw [List.mem_insertionSort] at hx2
    exact hmem x hx2
  have hlen2 : ((List.insertionSort (· ≤ ·)
      (rerollOnes (rollFour r).1 (rollFour r).2).1).drop 1).length = 3 := by
    rw [List.length_drop, List.length_insertionSort, hlen]
  have hb := sum_bounds _ hmem2
  rw [hlen2] at hb
  have hgs : (generate_score r).1 = ((List.insertionSort (· ≤ ·)
      (rerollOnes (rollFour r).1 (rollFour r).2).1).drop 1).sum := rfl
  rw [hgs]
  exact ⟨by exact_mod_cast hb.1, by exact_mod_cast hb.2⟩

theorem generate_score_f (r : RNG) : (generate_score r).2.f = r.f := by
  have h1 : (generate_score r).2 = (rerollOnes (rollFour r).1 (rollFour r).2).2 := rfl
  rw [h1, rerollOnes_f]
  rfl

theorem generate_score_dice {r : RNG} (h : DiceOK r) : DiceOK (generate_score r).2 := by
  intro i
  rw [generate_score_f]
  exact h i

theorem generate_scores_range : ∀ (n : Nat) (r : RNG), DiceOK r →
    ∀ s ∈ (generate_scores r n).1, 3 ≤ s ∧ s ≤ 18 := by
  intro n
  induction n with
  | zero => intro r _ s hs; simp [generate_scores] at hs
  | succ n ih =>
    intro r hr s hs
    simp only [generate_scores, List.mem_cons] at hs
    rcases hs with h1 | h1
    · subst h1; exact generate_score_range r hr
    · exact ih _ (generate_score_dice hr) s h1

theorem length_generate_scores : ∀ (n : Nat) (r : RNG),
    (generate_scores r n).1.length = n := by
  intro n
  induction n with
  | zero => intro r; rfl
  | succ n ih => intro r; simp only [generate_scores, List.length_cons, ih]

/-- C1: every invocation of the score-generation procedure inside
set_abilities (four uniform 1-6 dice, each die showing 1 rerolled once in a
single pass, lowest dropped, remaining three summed) produces a score in
[3, 18]: this holds for a single invocation of generate_score and for each
of the six scores produced for set_abilities. -/
theorem C1_score_range (r : RNG) (h : DiceOK r) :
    (3 ≤ (generate_score r).1 ∧ (generate_score r).1 ≤ 18) ∧
    ∀ s ∈ (generate_scores r 6).1, 3 ≤ s ∧ s ≤ 18 :=
  ⟨generate_score_range r h, generate_scores_range 6 r h⟩

theorem C1_score_range_witness :
    (3 ≤ (generate_score ⟨fun _ => 4, 0⟩).1 ∧ (generate_score ⟨fun _ => 4, 0⟩).1 ≤ 18) ∧
    ∀ s ∈ (generate_scores ⟨fun _ => 4, 0⟩ 6).1, 3 ≤ s ∧ s ≤ 18 :=
  C1_score_range ⟨fun _ => 4, 0⟩ (fun _ => ⟨by norm_num, by norm_num⟩)

/-- Association-list model of the Python abilities dict: insertion ordered,
keys unique.  Reading a key returns the value at its first occurrence
(0 if absent; in the program every key read is present). -/
def dictGet : List (String × Int) → String → Int
  | [], _ => 0
  | p :: t, k => if p.1 = k then p.2 else dictGet t k

/-- Python dict assignment d[k] = v: updating an existing key keeps its
position, assigning a missing key appends it at the end. -/
def dictSet : List (String × Int) → String → Int → List (String × Int)
  | [], k, v => [(k, v)]
  | p :: t, k, v => if p.1 = k then (k, v) :: t else p :: dictSet t k v

theorem dictGet_dictSet_self : ∀ (m : List (String × Int)) (k : String) (v : Int),
    dictGet (dictSet m k v) k = v := by
  intro m k v
  induction m with
  | nil => simp [dictGet, dictSet]
  | cons p t ih => by_cases hk : p.1 = k <;> simp [dictGet, dictSet, hk, ih]

theorem dictGet_dictSet_ne : ∀ (m : List (String × Int)) (k k' : String) (v : Int),
    k' ≠ k → dictGet (dictSet m k v) k' = dictGet m k' := by
  intro m k k' v h
  induction m with
  | nil => simp [dictGet, dictSet, Ne.symm h]
  | cons p t ih =>
    by_cases hk : p.1 = k
    · have h1 : dictSet (p :: t) k v = (k, v) :: t := by simp [dictSet, hk]
      have h2 : ¬ p.1 = k' := by rw [hk]; exact Ne.symm h
      rw [h1]
      simp [dictGet, Ne.symm h, h2]
    · have h1 : dictSet (p :: t) k v = p :: dictSet t k v := by simp [dictSet, hk]
      rw [h1]
      by_cases hk' : p.1 = k'
      · simp [dictGet, hk']
      · simp [dictGet, hk', ih]

theorem dictSet_map_fst : ∀ (m : List (String × Int)) (k : String) (v : Int),
    k ∈ m.map Prod.fst → (dictSet m k v).map Prod.fst = m.map Prod.fst := by
  intro m k v h
  induction m with
  | nil => simp at h
  | cons p t ih =>
    by_cases hk : p.1 = k
    · simp [dictSet, hk]
    · have ht : k ∈ t.map Prod.fst := by
        rcases List.mem_map.mp h with ⟨q, hq, hq1⟩
        rcases List.mem_cons.mp hq with h1 | h1
        · exact absurd (h1 ▸ hq1) hk
        · exact List.mem_map.mpr ⟨q, h1, hq1⟩
      simp [dictSet, hk, ih ht]

theorem dictSet_cons_ne (p : String × Int) (t : List (String × Int)) (k : String)
    (v : Int) (h : p.1 ≠ k) : dictSet (p :: t) k v = p :: dictSet t k v := by
  simp [dictSet, h]

theorem dictSet_cons_self (k : String) (v0 v : Int) (t : List (String × Int)) :
    dictSet ((k, v0) :: t) k v = (k, v) :: t := by
  simp [dictSet]

/-- Swap of two positions of a list, embedding the Python idiom
x[i], x[j] = x[j], x[i] used by random.shuffle (identity out of bounds;
shuffle only uses it in bounds). -/
def listSwap (l : List Int) (i j : Nat) : List Int :=
  if h : i < l.length ∧ j < l.length then
    (l.set i (l.get ⟨j, h.2⟩)).set j (l.get ⟨i, h.1⟩)
  else l

theorem get_cons_set_perm : ∀ (t : List Int) (k : Nat) (h : k < t.length) (a : Int),
    List.Perm (t.get ⟨k, h⟩ :: t.set k a) (a :: t) := by
  intro t
  induction t with
  | nil => intro k h a; exact absurd h (by simp)
  | cons b s ih =>
    intro k h a
    match k with
    | 0 => exact List.Perm.swap a b s
    | Nat.succ k =>
      have hk : k < s.length := by simpa using h
      exact (List.Perm.swap b (s.get ⟨k, hk⟩) (s.set k a)).trans
        ((List.Perm.cons b (ih k hk a)).trans (List.Perm.swap a b s))

theorem set_set_perm : ∀ (l : List Int) (i j : Nat) (hi : i < l.length)
    (hj : j < l.length),
    List.Perm ((l.set i (l.get ⟨j, hj⟩)).set j (l.get ⟨i, hi⟩)) l := by
  intro l
  induction l with
  | nil => intro i j hi hj; exact absurd hi (by simp)
  | cons a t ih =>
    intro i j hi hj
    match i, j with
    | 0, 0 => simp
    | 0, Nat.succ j =>
      have hj2 : j < t.length := by simpa using hj
      exact get_cons_set_perm t j hj2 a
    | Nat.succ i, 0 =>
      have hi2 : i < t.length := by simpa using hi
      exact get_cons_set_perm t i hi2 a
    | Nat.succ i, Nat.succ j =>
      have hi2 : i < t.length := by simpa using hi
      have hj2 : j < t.length := by simpa using hj
      exact List.Perm.cons a (ih i j hi2 hj2)

theorem listSwap_perm (l : List Int) (i j : Nat) : List.Perm (listSwap l i j) l := by
  unfold listSwap
  by_cases h : i < l.length ∧ j < l.length
  · rw [dif_pos h]
    exact set_set_perm l i j h.1 h.2
  · rw [dif_neg h]

theorem listSwap_length (l : List Int) (i j : Nat) :
    (listSwap l i j).length = l.length :=
  (listSwap_perm l i j).length_eq

/-- Embeds random.shuffle (Fisher-Yates, as in CPython):
for i in reversed(range(1, len(x))): j = _randbelow(i + 1); swap x[i], x[j].
The counter argument is the current value of i. -/
def shuffleAux (r : RNG) (l : List Int) : Nat → List Int × RNG
  | 0 => (l, r)
  | Nat.succ m =>
    let (j, r1) := randbelow r (m + 2)
    shuffleAux r1 (listSwap l (m + 1) j) m

/-- Embeds random.shuffle(x) on a list of length n: runs the swaps for
i = n-1 down to 1. -/
def shuffle (r : RNG) (l : List Int) : List Int × RNG :=
  shuffleAux r l (l.length - 1)

theorem shuffleAux_perm : ∀ (n : Nat) (r : RNG) (l : List Int),
    List.Perm (shuffleAux r l n).1 l := by
  intro n
  induction n with
  | zero => intro r l; exact List.Perm.refl l
  | succ m ih =>
    intro r l
    exact ((ih (randbelow r (m + 2)).2 (listSwap l (m + 1) (randbelow r (m + 2)).1)).trans
      (listSwap_perm l (m + 1) (randbelow r (m + 2)).1))

theorem shuffle_perm (r : RNG) (l : List Int) : List.Perm (shuffle r l).1 l :=
  shuffleAux_perm (l.length - 1) r l

theorem shuffle_length (r : RNG) (l : List Int) :
    (shuffle r l).1.length = l.length :=
  (shuffle_perm r l).length_eq

/-- The fixed list of valid races in Player.set_race. -/
def races : List String := ["High Elf", "Human"]

/-- Python truthiness of the race attribute (while not self.race):
None and the empty string are falsy. -/
def raceFalsy : Option String → Bool
  | none => true
  | some s => s == ""

def invalidChoiceMsg : String := "Invalid choice!"

def scoresPromptMsg (scores : List Int) : String :=
  "Scores to choose from: " ++ toString scores

def askAbilityMsg (ability : String) : String :=
  "What should should we assign to " ++ ability ++ "? "

def racesPromptMsg : String := "Races to choose from: " ++ toString races

def askRaceMsg : String := "What race should we set? "

def abilitiesNotSetMsg : String := "Abilities are not set! Call set_abilities method first."

def raceNotSetMsg : String := "Race is not set! Call set_race method first."

/-- The Player class: attribute state set by __init__. -/
structure Player where
  abilities : List (String × Int)
  height : Int
  weight : Int
  class_ : List String
  languages : List String
  race : Option String

/-- The six ability names, in the dict's construction order. -/
def abilityNames : List String :=
  ["charisma", "constitution", "dexterity", "intelligence", "strength", "wisdom"]

/-- Embeds Player.__init__. -/
def Player.init : Player :=
  { abilities := [("charisma", 0), ("constitution", 0), ("dexterity", 0),
      ("intelligence", 0), ("strength", 0), ("wisdom", 0)],
    height := 0, weight := 0, class_ := [], languages := [], race := none }

/-- Embeds for ability, score in zip(self.abilities, scores):
self.abilities[ability] = score, over an explicit list of pairs. -/
def assignLoop (m : List (String × Int)) (pairs : List (String × Int)) :
    List (String × Int) :=
  pairs.foldl (fun acc kv => dictSet acc kv.1 kv.2) m

/-- State after the interactive selection loop for one ability: the abilities
dict, the remaining candidate scores, the unconsumed input script, and the
printed output. -/
structure ChooseResult where
  m : List (String × Int)
  scores : List Int
  inputs : List Int
  out : List String

/-- Embeds the inner while-loop of set_abilities(randomize=False) for one
ability: while the ability value is 0, print the candidate scores, read a
selection; a selection present in the candidates is assigned and removed,
otherwise print "Invalid choice!" and re-prompt.  An exhausted input script
leaves the loop blocked after printing its prompt. -/
def chooseLoop : String → List (String × Int) → List Int → List Int → ChooseResult
  | ab, m, scores, [] =>
    if dictGet m ab = 0 then ⟨m, scores, [], [scoresPromptMsg scores, askAbilityMsg ab]⟩
    else ⟨m, scores, [], []⟩
  | ab, m, scores, i :: rest =>
    if dictGet m ab = 0 then
      if i ∈ scores then
        let res := chooseLoop ab (dictSet m ab i) (scores.erase i) rest
        ⟨res.m, res.scores, res.inputs,
          scoresPromptMsg scores :: askAbilityMsg ab :: res.out⟩
      else
        let res := chooseLoop ab m scores rest
        ⟨res.m, res.scores, res.inputs,
          scoresPromptMsg scores :: askAbilityMsg ab :: invalidChoiceMsg :: res.out⟩
    else ⟨m, scores, i :: rest, []⟩

/-- Embeds the outer for-loop of set_abilities(randomize=False) over the
ability names. -/
def assignAll : List String → List (String × Int) → List Int → List Int → ChooseResult
  | [], m, scores, inputs => ⟨m, scores, inputs, []⟩
  | ab :: rest, m, scores, inputs =>
    let r1 := chooseLoop ab m scores inputs
    let r2 := assignAll rest r1.m r1.scores r1.inputs
    ⟨r2.m, r2.scores, r2.inputs, r1.out ++ r2.out⟩

/-- Embeds Player.set_abilities: generate six scores; if randomize, shuffle
them and assign them to the ability names in dict order; otherwise run the
interactive selection loops.  Returns the player, the generator state, the
unconsumed input script and the printed output. -/
def Player.set_abilities (p : Player) (randomize : Bool) (r : RNG)
    (inputs : List Int) : Player × RNG × List Int × List String :=
  let sres := generate_scores r 6
  let scores := sres.1
  let r1 := sres.2
  if randomize then
    let hres := shuffle r1 scores
    ({ p with abilities := assignLoop p.abilities ((p.abilities.map Prod.fst).zip hres.1) },
      hres.2, inputs, [])
  else
    let res := assignAll (p.abilities.map Prod.fst) p.abilities scores inputs
    ({ p with abilities := res.m }, r1, res.inputs, res.out)

/-- Embeds the while-loop of set_race(randomize=False): while the race is
unset, print the races, read a name; a name in the valid list is stored,
otherwise print "Invalid choice!" and re-prompt. -/
def raceLoop : Player → List String → Player × List String × List String
  | p, [] =>
    if raceFalsy p.race then (p, [], [racesPromptMsg, askRaceMsg]) else (p, [], [])
  | p, s :: rest =>
    if raceFalsy p.race then
      if s ∈ races then
        let res := raceLoop { p with race := some s } rest
        (res.1, res.2.1, racesPromptMsg :: askRaceMsg :: res.2.2)
      else
        let res := raceLoop p rest
        (res.1, res.2.1, racesPromptMsg :: askRaceMsg :: invalidChoiceMsg :: res.2.2)
    else (p, s :: rest, [])

/-- Embeds Player.set_race: if randomize, random.choice picks the race at a
uniform index below len(races); otherwise run the interactive loop. -/
def Player.set_race (p : Player) (randomize : Bool) (r : RNG)
    (inputs : List String) : Player × RNG × List String × List String :=
  if randomize then
    let (j, r1) := randbelow r races.length
    ({ p with race := some (races.getD j "") }, r1, inputs, [])
  else
    let res := raceLoop p inputs
    (res.1, r, res.2.1, res.2.2)

/-- Embeds Player.set_racial_traits: report and do nothing if any ability is
falsy (0) or the race is falsy; otherwise apply the High Elf bonuses
(charisma += 1, dexterity += 2); any other race gets no bonus. -/
def Player.set_racial_traits (p : Player) : Player × List String :=
  if p.abilities.any (fun kv => kv.2 == 0) then (p, [abilitiesNotSetMsg])
  else if raceFalsy p.race then (p, [raceNotSetMsg])
  else if p.race = some "High Elf" then
    let m1 := dictSet p.abilities "charisma" (dictGet p.abilities "charisma" + 1)
    let m2 := dictSet m1 "dexterity" (dictGet m1 "dexterity" + 2)
    ({ p with abilities := m2 }, [])
  else (p, [])

/-- Embeds setup_player: build a fresh Player, set abilities, set race,
apply racial traits, and return it. -/
def setup_player (randomize : Bool) (r : RNG) (scoreInputs : List Int)
    (raceInputs : List String) : Player × RNG × List String :=
  let p := Player.init
  let (p1, r1, _ins1, out1) := p.set_abilities randomize r scoreInputs
  let (p2, r2, _ins2, out2) := p1.set_race randomize r1 raceInputs
  let (p3, out3) := p2.set_racial_traits
  (p3, r2, out1 ++ out2 ++ out3)

theorem any_zero_eq_false (m : List (String × Int)) (h : ∀ kv ∈ m, kv.2 ≠ 0) :
    (m.any fun kv => kv.2 == 0) = false := by
  rw [List.any_eq_false]
  intro kv hkv
  simpa using h kv hkv

theorem any_zero_eq_true (m : List (String × Int)) (h : ∃ kv ∈ m, kv.2 = 0) :
    (m.any fun kv => kv.2 == 0) = true := by
  rw [List.any_eq_true]
  obtain ⟨kv, h1, h2⟩ := h
  exact ⟨kv, h1, by simpa using h2⟩

theorem abilities_shape (m : List (String × Int)) (h : m.map Prod.fst = abilityNames) :
    ∃ c co d i s w : Int, m = [("charisma", c), ("constitution", co), ("dexterity", d),
      ("intelligence", i), ("strength", s), ("wisdom", w)] := by
  rcases m with _ | ⟨⟨k1, v1⟩, _ | ⟨⟨k2, v2⟩, _ | ⟨⟨k3, v3⟩, _ | ⟨⟨k4, v4⟩,
    _ | ⟨⟨k5, v5⟩, _ | ⟨⟨k6, v6⟩, _ | ⟨q, t⟩⟩⟩⟩⟩⟩⟩ <;>
    simp [abilityNames] at h
  obtain ⟨h1, h2, h3, h4, h5, h6⟩ := h
  subst h1; subst h2; subst h3; subst h4; subst h5; subst h6
  exact ⟨v1, v2, v3, v4, v5, v6, rfl⟩

theorem set_racial_traits_high_elf (p : Player) (c co d i s w : Int)
    (hm : p.abilities = [("charisma", c), ("constitution", co), ("dexterity", d),
      ("intelligence", i), ("strength", s), ("wisdom", w)])
    (h1 : c ≠ 0) (h2 : co ≠ 0) (h3 : d ≠ 0) (h4 : i ≠ 0) (h5 : s ≠ 0) (h6 : w ≠ 0)
    (hr : p.race = some "High Elf") :
    Player.set_racial_traits p =
      ({ p with abilities := [("charisma", c + 1), ("constitution", co),
        ("dexterity", d + 2), ("intelligence", i), ("strength", s), ("wisdom", w)] }, []) := by
  unfold Player.set_racial_traits
  rw [hm, hr]
  simp +decide [raceFalsy, dictGet, dictSet, h1, h2, h3, h4, h5, h6]

/-- C4: when its preconditions fail, set_racial_traits only reports and
mutates nothing: with any ability still 0 it reports the abilities message
(regardless of race, since that check comes first), otherwise with race
unset it reports the race message; in both cases the player is unchanged. -/
theorem C4_precondition_noop (p : Player) :
    ((∃ kv ∈ p.abilities, kv.2 = 0) →
      Player.set_racial_traits p = (p, [abilitiesNotSetMsg])) ∧
    ((∀ kv ∈ p.abilities, kv.2 ≠ 0) → p.race = none →
      Player.set_racial_traits p = (p, [raceNotSetMsg])) := by
  constructor
  · intro h
    unfold Player.set_racial_traits
    rw [any_zero_eq_true p.abilities h]
    simp
  · intro h hr
    unfold Player.set_racial_traits
    rw [any_zero_eq_false p.abilities h, hr]
    simp [raceFalsy]

theorem C4_precondition_noop_witness :
    (∃ kv ∈ Player.init.abilities, kv.2 = 0) ∧
    Player.set_racial_traits Player.init = (Player.init, [abilitiesNotSetMsg]) :=
  ⟨⟨("charisma", 0), by decide, rfl⟩,
    (C4_precondition_noop Player.init).1 ⟨("charisma", 0), by decide, rfl⟩⟩

/-- C5: on a player with all six abilities nonzero and race "High Elf",
set_racial_traits adds exactly 1 to charisma and 2 to dexterity, and leaves
the other four abilities and every other field unchanged. -/
theorem C5_high_elf (p : Player)
    (hk : p.abilities.map Prod.fst = abilityNames)
    (hnz : ∀ kv ∈ p.abilities, kv.2 ≠ 0)
    (hr : p.race = some "High Elf") :
    dictGet ((Player.set_racial_traits p).1).abilities "charisma" =
      dictGet p.abilities "charisma" + 1 ∧
    dictGet ((Player.set_racial_traits p).1).abilities "dexterity" =
      dictGet p.abilities "dexterity" + 2 ∧
    (∀ k, k ≠ "charisma" → k ≠ "dexterity" →
      dictGet ((Player.set_racial_traits p).1).abilities k = dictGet p.abilities k) ∧
    ((Player.set_racial_traits p).1).height = p.height ∧
    ((Player.set_racial_traits p).1).weight = p.weight ∧
    ((Player.set_racial_traits p).1).class_ = p.class_ ∧
    ((Player.set_racial_traits p).1).languages = p.languages ∧
    ((Player.set_racial_traits p).1).race = p.race := by
  obtain ⟨c, co, d, i, s, w, hm⟩ := abilities_shape p.abilities hk
  have h1 : c ≠ 0 := by
    simpa using hnz ("charisma", c) (by rw [hm]; simp)
  have h2 : co ≠ 0 := by
    simpa using hnz ("constitution", co) (by rw [hm]; simp)
  have h3 : d ≠ 0 := by
    simpa using hnz ("dexterity", d) (by rw [hm]; simp)
  have h4 : i ≠ 0 := by
    simpa using hnz ("intelligence", i) (by rw [hm]; simp)
  have h5 : s ≠ 0 := by
    simpa using hnz ("strength", s) (by rw [hm]; simp)
  have h6 : w ≠ 0 := by
    simpa using hnz ("wisdom", w) (by rw [hm]; simp)
  have he := set_racial_traits_high_elf p c co d i s w hm h1 h2 h3 h4 h5 h6 hr
  rw [he, hm]
  refine ⟨by simp +decide [dictGet], by simp +decide [dictGet], ?_, rfl, rfl, rfl, rfl, rfl⟩
  intro k hk1 hk2
  simp [dictGet, Ne.symm hk1, Ne.symm hk2]

def p10 : Player :=
  { abilities := [("charisma", 10), ("constitution", 10), ("dexterity", 10),
      ("intelligence", 10), ("strength", 10), ("wisdom", 10)],
    height := 0, weight := 0, class_ := [], languages := [], race := some "High Elf" }

theorem C5_high_elf_witness :
    (p10.abilities.map Prod.fst = abilityNames ∧ (∀ kv ∈ p10.abilities, kv.2 ≠ 0) ∧
      p10.race = some "High Elf") ∧
    dictGet ((Player.set_racial_traits p10).1).abilities "charisma" =
      dictGet p10.abilities "charisma" + 1 ∧
    dictGet ((Player.set_racial_traits p10).1).abilities "dexterity" =
      dictGet p10.abilities "dexterity" + 2 :=
  ⟨⟨by decide, by decide, rfl⟩,
    (C5_high_elf p10 (by decide) (by decide) rfl).1,
    (C5_high_elf p10 (by decide) (by decide) rfl).2.1⟩

/-- C6: on a player with all six abilities nonzero and race "Human",
set_racial_traits changes nothing at all (and prints nothing). -/
theorem C6_human_noop (p : Player) (hnz : ∀ kv ∈ p.abilities, kv.2 ≠ 0)
    (hr : p.race = some "Human") : Player.set_racial_traits p = (p, []) := by
  unfold Player.set_racial_traits
  rw [any_zero_eq_false p.abilities hnz, hr]
  simp +decide [raceFalsy]

def pHuman : Player :=
  { abilities := [("charisma", 10), ("constitution", 10), ("dexterity", 10),
      ("intelligence", 10), ("strength", 10), ("wisdom", 10)],
    height := 0, weight := 0, class_ := [], languages := [], race := some "Human" }

theorem C6_human_noop_witness :
    (∀ kv ∈ pHuman.abilities, kv.2 ≠ 0) ∧
    Player.set_racial_traits pHuman = (pHuman, []) :=
  ⟨by decide, C6_human_noop pHuman (by decide) rfl⟩

def cexP : Player :=
  { abilities := [("charisma", -1), ("constitution", 10), ("dexterity", 10),
      ("intelligence", 10), ("strength", 10), ("wisdom", 10)],
    height := 0, weight := 0, class_ := [], languages := [], race := some "High Elf" }

/-- C7 counterexample: a player with all abilities nonzero (charisma = -1)
and race "High Elf" on whom two calls to set_racial_traits do NOT apply the
bonus twice: the first call makes charisma 0, so the second call trips the
abilities-not-set guard and mutates nothing. -/
theorem C7_counterexample :
    (∀ kv ∈ cexP.abilities, kv.2 ≠ 0) ∧ cexP.race = some "High Elf" ∧
    ¬ (dictGet ((Player.set_racial_traits (Player.set_racial_traits cexP).1).1).abilities
         "charisma" = dictGet cexP.abilities "charisma" + 2 ∧
       dictGet ((Player.set_racial_traits (Player.set_racial_traits cexP).1).1).abilities
         "dexterity" = dictGet cexP.abilities "dexterity" + 4) := by
  decide

/-- C7 (amended): on a player with all abilities nonzero and race "High Elf",
two calls to set_racial_traits double-apply the bonus (charisma +2,
dexterity +4), provided the first application does not zero an ability,
i.e. charisma is not -1 and dexterity is not -2 beforehand. -/
theorem C7_double_apply (p : Player)
    (hk : p.abilities.map Prod.fst = abilityNames)
    (hnz : ∀ kv ∈ p.abilities, kv.2 ≠ 0)
    (hc : dictGet p.abilities "charisma" ≠ -1)
    (hd : dictGet p.abilities "dexterity" ≠ -2)
    (hr : p.race = some "High Elf") :
    dictGet ((Player.set_racial_traits (Player.set_racial_traits p).1).1).abilities
      "charisma" = dictGet p.abilities "charisma" + 2 ∧
    dictGet ((Player.set_racial_traits (Player.set_racial_traits p).1).1).abilities
      "dexterity" = dictGet p.abilities "dexterity" + 4 := by
  obtain ⟨c, co, d, i, s, w, hm⟩ := abilities_shape p.abilities hk
  rw [hm] at hc hd
  simp +decide [dictGet] at hc hd
  have h1 : c ≠ 0 := by
    simpa using hnz ("charisma", c) (by rw [hm]; simp)
  have h2 : co ≠ 0 := by
    simpa using hnz ("constitution", co) (by rw [hm]; simp)
  have h3 : d ≠ 0 := by
    simpa using hnz ("dexterity", d) (by rw [hm]; simp)
  have h4 : i ≠ 0 := by
    simpa using hnz ("intelligence", i) (by rw [hm]; simp)
  have h5 : s ≠ 0 := by
    simpa using hnz ("strength", s) (by rw [hm]; simp)
  have h6 : w ≠ 0 := by
    simpa using hnz ("wisdom", w) (by rw [hm]; simp)
  have he1 := set_racial_traits_high_elf p c co d i s w hm h1 h2 h3 h4 h5 h6 hr
  have he2 := set_racial_traits_high_elf
    ({ p with abilities := [("charisma", c + 1), ("constitution", co),
      ("dexterity", d + 2), ("intelligence", i), ("strength", s), ("wisdom", w)] })
    (c + 1) co (d + 2) i s w rfl (by omega) h2 (by omega) h4 h5 h6 hr
  rw [he1]
  rw [show (({ p with abilities := [("charisma", c + 1), ("constitution", co),
      ("dexterity", d + 2), ("intelligence", i), ("strength", s), ("wisdom", w)] },
      ([] : List String)).1) = ({ p with abilities := [("charisma", c + 1),
      ("constitution", co), ("dexterity", d + 2), ("intelligence", i), ("strength", s),
      ("wisdom", w)] } : Player) from rfl]
  rw [he2, hm]
  constructor
  · simp +decide [dictGet]
    omega
  · simp +decide [dictGet]
    omega

theorem C7_double_apply_witness :
    (p10.abilities.map Prod.fst = abilityNames ∧ (∀ kv ∈ p10.abilities, kv.2 ≠ 0) ∧
      dictGet p10.abilities "charisma" ≠ -1 ∧ dictGet p10.abilities "dexterity" ≠ -2) ∧
    dictGet ((Player.set_racial_traits (Player.set_racial_traits p10).1).1).abilities
      "charisma" = dictGet p10.abilities "charisma" + 2 ∧
    dictGet ((Player.set_racial_traits (Player.set_racial_traits p10).1).1).abilities
      "dexterity" = dictGet p10.abilities "dexterity" + 4 :=
  ⟨⟨by decide, by decide, by decide, by decide⟩,
    C7_double_apply p10 (by decide) (by decide) (by decide) (by decide) rfl⟩

/-- The race invariant of the data model: unset or a member of races. -/
def raceValid (p : Player) : Prop :=
  p.race = none ∨ p.race = some "High Elf" ∨ p.race = some "Human"

theorem set_abilities_race (p : Player) (rand : Bool) (r : RNG) (ins : List Int) :
    ((Player.set_abilities p rand r ins).1).race = p.race := by
  cases rand <;> rfl

theorem set_racial_traits_race (p : Player) :
    ((Player.set_racial_traits p).1).race = p.race := by
  unfold Player.set_racial_traits
  split
  · rfl
  · split
    · rfl
    · split <;> rfl

theorem set_race_true_race (p : Player) (r : RNG) (ins : List String) :
    ((Player.set_race p true r ins).1).race = some "High Elf" ∨
    ((Player.set_race p true r ins).1).race = some "Human" := by
  have e : ((Player.set_race p true r ins).1).race =
      some (races.getD (r.f r.k % 2) "") := rfl
  rcases Nat.mod_two_eq_zero_or_one (r.f r.k) with h | h
  · left; rw [e, h]; rfl
  · right; rw [e, h]; rfl

theorem raceLoop_race : ∀ (ins : List String) (p : Player),
    (raceLoop p ins).1.race = p.race ∨
    ∃ s ∈ races, s ∈ ins ∧ (raceLoop p ins).1.race = some s := by
  intro ins
  induction ins with
  | nil =>
    intro p
    by_cases h : raceFalsy p.race <;> simp [raceLoop, h]
  | cons s rest ih =>
    intro p
    by_cases h : raceFalsy p.race
    · by_cases hs : s ∈ races
      · rcases ih { p with race := some s } with h1 | ⟨t, ht, htin, h2⟩
        · refine Or.inr ⟨s, hs, List.mem_cons_self _ _, ?_⟩
          simp only [raceLoop, h, hs, if_true]
          exact h1
        · refine Or.inr ⟨t, ht, List.mem_cons_of_mem _ htin, ?_⟩
          simp only [raceLoop, h, hs, if_true]
          exact h2
      · rcases ih p with h1 | ⟨t, ht, htin, h2⟩
        · refine Or.inl ?_
          simp only [raceLoop, h, hs, if_true, if_false]
          exact h1
        · refine Or.inr ⟨t, ht, List.mem_cons_of_mem _ htin, ?_⟩
          simp only [raceLoop, h, hs, if_true, if_false]
          exact h2
    · refine Or.inl ?_
      simp [raceLoop, h]

theorem raceLoop_valid : ∀ (ins : List String) (p : Player), raceValid p →
    raceValid (raceLoop p ins).1 := by
  intro ins p hv
  rcases raceLoop_race ins p with h1 | ⟨t, ht, _, h2⟩
  · unfold raceValid
    rw [h1]
    exact hv
  · unfold raceValid
    rw [h2]
    have : t = "High Elf" ∨ t = "Human" := by simpa [races] using ht
    rcases this with h | h <;> rw [h]
    · exact Or.inr (Or.inl rfl)
    · exact Or.inr (Or.inr rfl)

/-- C3: the race field is always None or a member of the valid race set:
it is None after construction; set_abilities and set_racial_traits never
change it; set_race(randomize=True) always stores a member of the set;
set_race(randomize=False) either leaves it or stores an input string that
is a member of the set; and every form of set_race preserves the
invariant. -/
theorem C3_race_invariant :
    Player.init.race = none ∧
    (∀ (p : Player) (rand : Bool) (r : RNG) (ins : List Int),
      ((Player.set_abilities p rand r ins).1).race = p.race) ∧
    (∀ (p : Player) (r : RNG) (ins : List String),
      ((Player.set_race p true r ins).1).race = some "High Elf" ∨
      ((Player.set_race p true r ins).1).race = some "Human") ∧
    (∀ (p : Player) (r : RNG) (ins : List String),
      ((Player.set_race p false r ins).1).race = p.race ∨
      ∃ s ∈ races, s ∈ ins ∧ ((Player.set_race p false r ins).1).race = some s) ∧
    (∀ p : Player, ((Player.set_racial_traits p).1).race = p.race) ∧
    (∀ (p : Player) (rand : Bool) (r : RNG) (ins : List String), raceValid p →
      raceValid ((Player.set_race p rand r ins).1)) := by
  refine ⟨rfl, set_abilities_race, set_race_true_race, ?_, set_racial_traits_race, ?_⟩
  · intro p r ins
    exact raceLoop_race ins p
  · intro p rand r ins hv
    cases rand
    · exact raceLoop_valid ins p hv
    · rcases set_race_true_race p r ins with h | h
      · exact Or.inr (Or.inl h)
      · exact Or.inr (Or.inr h)

theorem C3_race_invariant_witness :
    raceValid Player.init ∧
    raceValid ((Player.set_race Player.init true ⟨fun _ => 0, 0⟩ []).1) :=
  ⟨Or.inl rfl,
    C3_race_invariant.2.2.2.2.2 Player.init true ⟨fun _ => 0, 0⟩ [] (Or.inl rfl)⟩

theorem assignLoop_map_fst : ∀ (pairs : List (String × Int)) (m : List (String × Int)),
    (∀ q ∈ pairs, q.1 ∈ m.map Prod.fst) →
    (assignLoop m pairs).map Prod.fst = m.map Prod.fst := by
  intro pairs
  induction pairs with
  | nil => intro m _; rfl
  | cons q qs ih =>
    intro m h
    have hq : q.1 ∈ m.map Prod.fst := h q (List.mem_cons_self _ _)
    have e1 : (dictSet m q.1 q.2).map Prod.fst = m.map Prod.fst :=
      dictSet_map_fst m q.1 q.2 hq
    have e2 : assignLoop m (q :: qs) = assignLoop (dictSet m q.1 q.2) qs := rfl
    rw [e2, ih (dictSet m q.1 q.2) (fun q' hq' => e1 ▸ h q' (List.mem_cons_of_mem _ hq')),
      e1]

theorem chooseLoop_map_fst : ∀ (ins : List Int) (ab : String) (m : List (String × Int))
    (scores : List Int), ab ∈ m.map Prod.fst →
    (chooseLoop ab m scores ins).m.map Prod.fst = m.map Prod.fst := by
  intro ins
  induction ins with
  | nil =>
    intro ab m scores _
    by_cases h : dictGet m ab = 0 <;> simp [chooseLoop, h]
  | cons i rest ih =>
    intro ab m scores hab
    by_cases h : dictGet m ab = 0
    · by_cases hi : i ∈ scores
      · have e1 : (dictSet m ab i).map Prod.fst = m.map Prod.fst :=
          dictSet_map_fst m ab i hab
        simp only [chooseLoop, h, hi, if_true]
        rw [ih ab (dictSet m ab i) (scores.erase i) (e1 ▸ hab), e1]
      · simp only [chooseLoop, h, hi, if_true, if_false]
        exact ih ab m scores hab
    · simp [chooseLoop, h]

theorem assignAll_map_fst : ∀ (ks : List String) (m : List (String × Int))
    (scores inputs : List Int), (∀ ab ∈ ks, ab ∈ m.map Prod.fst) →
    (assignAll ks m scores inputs).m.map Prod.fst = m.map Prod.fst := by
  intro ks
  induction ks with
  | nil => intro m scores inputs _; rfl
  | cons ab ks ih =>
    intro m scores inputs h
    have e1 : (chooseLoop ab m scores inputs).m.map Prod.fst = m.map Prod.fst :=
      chooseLoop_map_fst inputs ab m scores (h ab (List.mem_cons_self _ _))
    simp only [assignAll]
    rw [ih _ _ _ (fun ab' hab' => e1 ▸ h ab' (List.mem_cons_of_mem _ hab')), e1]

theorem raceLoop_abilities : ∀ (ins : List String) (p : Player),
    (raceLoop p ins).1.abilities = p.abilities := by
  intro ins
  induction ins with
  | nil =>
    intro p
    by_cases h : raceFalsy p.race <;> simp [raceLoop, h]
  | cons s rest ih =>
    intro p
    by_cases h : raceFalsy p.race
    · by_cases hs : s ∈ races
      · simp only [raceLoop, h, hs, if_true]
        exact ih { p with race := some s }
      · simp only [raceLoop, h, hs, if_true, if_false]
        exact ih p
    · simp [raceLoop, h]

theorem set_race_abilities (p : Player) (rand : Bool) (r : RNG) (ins : List String) :
    ((Player.set_race p rand r ins).1).abilities = p.abilities := by
  cases rand
  · exact raceLoop_abilities ins p
  · rfl

theorem set_racial_traits_keys (p : Player)
    (hk : p.abilities.map Prod.fst = abilityNames) :
    ((Player.set_racial_traits p).1).abilities.map Prod.fst = abilityNames := by
  unfold Player.set_racial_traits
  split
  · exact hk
  · split
    · exact hk
    · split
      · have hc : "charisma" ∈ p.abilities.map Prod.fst := by rw [hk]; decide
        have e1 := dictSet_map_fst p.abilities "charisma"
          (dictGet p.abilities "charisma" + 1) hc
        have hd : "dexterity" ∈ (dictSet p.abilities "charisma"
            (dictGet p.abilities "charisma" + 1)).map Prod.fst := by
          rw [e1, hk]; decide
        have e2 := dictSet_map_fst
          (dictSet p.abilities "charisma" (dictGet p.abilities "charisma" + 1))
          "dexterity" (dictGet (dictSet p.abilities "charisma"
            (dictGet p.abilities "charisma" + 1)) "dexterity" + 2) hd
        dsimp only
        rw [e2, e1, hk]
      · exact hk

theorem set_abilities_keys (p : Player) (rand : Bool) (r : RNG) (ins : List Int)
    (hk : p.abilities.map Prod.fst = abilityNames) :
    ((Player.set_abilities p rand r ins).1).abilities.map Prod.fst = abilityNames := by
  cases rand
  · have e : ((Player.set_abilities p false r ins).1).abilities =
        (assignAll (p.abilities.map Prod.fst) p.abilities
          (generate_scores r 6).1 ins).m := rfl
    rw [e, assignAll_map_fst _ _ _ _ (fun ab hab => hab), hk]
  · have e : ((Player.set_abilities p true r ins).1).abilities =
        assignLoop p.abilities ((p.abilities.map Prod.fst).zip
          (shuffle (generate_scores r 6).2 (generate_scores r 6).1).1) := rfl
    rw [e, assignLoop_map_fst _ _ (fun q hq => (List.of_mem_zip hq).1), hk]

/-- C9: the abilities mapping always has exactly the six keys charisma,
constitution, dexterity, intelligence, strength, wisdom, in that order:
established by __init__ and preserved by set_abilities (both modes),
set_race (both modes) and set_racial_traits. -/
theorem C9_keys_fixed :
    Player.init.abilities.map Prod.fst = abilityNames ∧
    (∀ (p : Player) (rand : Bool) (r : RNG) (ins : List Int),
      p.abilities.map Prod.fst = abilityNames →
      ((Player.set_abilities p rand r ins).1).abilities.map Prod.fst = abilityNames) ∧
    (∀ (p : Player) (rand : Bool) (r : RNG) (ins : List String),
      p.abilities.map Prod.fst = abilityNames →
      ((Player.set_race p rand r ins).1).abilities.map Prod.fst = abilityNames) ∧
    (∀ p : Player, p.abilities.map Prod.fst = abilityNames →
      ((Player.set_racial_traits p).1).abilities.map Prod.fst = abilityNames) := by
  refine ⟨rfl, set_abilities_keys, ?_, set_racial_traits_keys⟩
  intro p rand r ins hk
  rw [set_race_abilities p rand r ins]
  exact hk

theorem C9_keys_fixed_witness :
    Player.init.abilities.map Prod.fst = abilityNames ∧
    ((Player.set_racial_traits Player.init).1).abilities.map Prod.fst = abilityNames :=
  ⟨rfl, C9_keys_fixed.2.2.2 Player.init rfl⟩

theorem assignLoop_cons_ne : ∀ (pairs : List (String × Int)) (k : String) (v : Int)
    (t : List (String × Int)), (∀ q ∈ pairs, q.1 ≠ k) →
    assignLoop ((k, v) :: t) pairs = (k, v) :: assignLoop t pairs := by
  intro pairs
  induction pairs with
  | nil => intro k v t _; rfl
  | cons q qs ih =>
    intro k v t h
    have hq : q.1 ≠ k := h q (List.mem_cons_self _ _)
    have e1 : assignLoop ((k, v) :: t) (q :: qs) =
        assignLoop (dictSet ((k, v) :: t) q.1 q.2) qs := rfl
    have e2 : dictSet ((k, v) :: t) q.1 q.2 = (k, v) :: dictSet t q.1 q.2 :=
      dictSet_cons_ne (k, v) t q.1 q.2 (Ne.symm hq)
    have e3 : assignLoop t (q :: qs) = assignLoop (dictSet t q.1 q.2) qs := rfl
    rw [e1, e2, e3]
    exact ih k v (dictSet t q.1 q.2) (fun q' hq' => h q' (List.mem_cons_of_mem _ hq'))

theorem assignLoop_zip : ∀ (m : List (String × Int)) (vs : List Int),
    (m.map Prod.fst).Nodup → vs.length = m.length →
    assignLoop m ((m.map Prod.fst).zip vs) = (m.map Prod.fst).zip vs := by
  intro m
  induction m with
  | nil => intro vs _ _; rfl
  | cons hd t ih =>
    obtain ⟨k, v0⟩ := hd
    intro vs hnd hlen
    match vs with
    | [] => exact absurd hlen (by simp)
    | v :: vs2 =>
      have hnd1 : (k :: t.map Prod.fst).Nodup := hnd
      have hknotin : k ∉ t.map Prod.fst := (List.nodup_cons.mp hnd1).1
      have hnd2 : (t.map Prod.fst).Nodup := (List.nodup_cons.mp hnd1).2
      have hlen2 : vs2.length = t.length := by simpa using hlen
      have e0 : (((k, v0) :: t).map Prod.fst).zip (v :: vs2) =
          (k, v) :: (t.map Prod.fst).zip vs2 := rfl
      have e1 : assignLoop ((k, v0) :: t) ((k, v) :: (t.map Prod.fst).zip vs2) =
          assignLoop (dictSet ((k, v0) :: t) k v) ((t.map Prod.fst).zip vs2) := rfl
      have e2 : dictSet ((k, v0) :: t) k v = (k, v) :: t := dictSet_cons_self k v0 v t
      have hne : ∀ q ∈ (t.map Prod.fst).zip vs2, q.1 ≠ k := by
        intro q hq hqk
        exact hknotin (hqk ▸ (List.of_mem_zip hq).1)
      rw [e0, e1, e2, assignLoop_cons_ne _ k v t hne, ih vs2 hnd2 hlen2]

theorem dictGet_zip_mem : ∀ (ks : List String) (vs : List Int) (k : String),
    k ∈ ks → ks.length = vs.length → dictGet (ks.zip vs) k ∈ vs := by
  intro ks
  induction ks with
  | nil => intro vs k hk _; exact absurd hk (by simp)
  | cons k0 t ih =>
    intro vs k hk hlen
    match vs with
    | [] => exact absurd hlen (by simp)
    | v :: vs2 =>
      by_cases h0 : k0 = k
      · have : dictGet ((k0 :: t).zip (v :: vs2)) k = v := by
          simp [List.zip_cons_cons, dictGet, h0]
        rw [this]
        exact List.mem_cons_self _ _
      · have : dictGet ((k0 :: t).zip (v :: vs2)) k = dictGet (t.zip vs2) k := by
          simp only [List.zip_cons_cons, dictGet, h0, if_false]
          rfl
        rw [this]
        have hk2 : k ∈ t := by
          rcases List.mem_cons.mp hk with h | h
          · exact absurd h.symm h0
          · exact h
        exact List.mem_cons_of_mem _ (ih vs2 k hk2 (by simpa using hlen))

/-- C2: with randomize=True, over any randomness source, the shuffle
permutes the six generated scores and the assignment loop stores exactly
them: the multiset of the six stored ability values equals the multiset of
the generated scores, and every ability receives one of the generated
scores. -/
theorem C2_random_assignment (p : Player) (r : RNG) (ins : List Int)
    (hk : p.abilities.map Prod.fst = abilityNames) :
    List.Perm (((Player.set_abilities p true r ins).1).abilities.map Prod.snd)
      ((generate_scores r 6).1) ∧
    ∀ k ∈ abilityNames,
      dictGet ((Player.set_abilities p true r ins).1).abilities k ∈
        (generate_scores r 6).1 := by
  have e : ((Player.set_abilities p true r ins).1).abilities =
      assignLoop p.abilities ((p.abilities.map Prod.fst).zip
        (shuffle (generate_scores r 6).2 (generate_scores r 6).1).1) := rfl
  have hperm : List.Perm (shuffle (generate_scores r 6).2 (generate_scores r 6).1).1
      ((generate_scores r 6).1) := shuffle_perm _ _
  have hslen : (shuffle (generate_scores r 6).2 (generate_scores r 6).1).1.length = 6 := by
    rw [shuffle_length]
    exact length_generate_scores 6 r
  have hmlen : p.abilities.length = 6 := by
    have h6 := congrArg List.length hk
    rw [List.length_map] at h6
    exact h6.trans rfl
  have hnd : (p.abilities.map Prod.fst).Nodup := by rw [hk]; decide
  have hz := assignLoop_zip p.abilities
    (shuffle (generate_scores r 6).2 (generate_scores r 6).1).1 hnd
    (by rw [hslen, hmlen])
  rw [e, hz]
  constructor
  · rw [List.map_snd_zip]
    · exact hperm
    · rw [hslen, List.length_map, hmlen]
  · intro k hkmem
    have hmem := dictGet_zip_mem (p.abilities.map Prod.fst)
      (shuffle (generate_scores r 6).2 (generate_scores r 6).1).1 k
      (by rw [hk]; exact hkmem) (by rw [hslen, List.length_map, hmlen])
    exact hperm.mem_iff.mp hmem

theorem C2_random_assignment_witness :
    Player.init.abilities.map Prod.fst = abilityNames ∧
    List.Perm (((Player.set_abilities Player.init true ⟨fun _ => 2, 0⟩ []).1).abilities.map
      Prod.snd) ((generate_scores ⟨fun _ => 2, 0⟩ 6).1) :=
  ⟨rfl, (C2_random_assignment Player.init ⟨fun _ => 2, 0⟩ [] rfl).1⟩

theorem chooseLoop_skip (ab : String) (m : List (String × Int)) (scores inputs : List Int)
    (h : dictGet m ab ≠ 0) : chooseLoop ab m scores inputs = ⟨m, scores, inputs, []⟩ := by
  cases inputs with
  | nil => simp [chooseLoop, h]
  | cons i rest => simp [chooseLoop, h]

theorem chooseLoop_invalid (ab : String) (m : List (String × Int)) (scores : List Int)
    (i : Int) (rest : List Int) (h0 : dictGet m ab = 0) (hi : i ∉ scores) :
    chooseLoop ab m scores (i :: rest) =
      ⟨(chooseLoop ab m scores rest).m, (chooseLoop ab m scores rest).scores,
       (chooseLoop ab m scores rest).inputs, scoresPromptMsg scores :: askAbilityMsg ab ::
         invalidChoiceMsg :: (chooseLoop ab m scores rest).out⟩ := by
  simp [chooseLoop, h0, hi]

theorem chooseLoop_valid (ab : String) (m : List (String × Int)) (scores : List Int)
    (i : Int) (rest : List Int) (h0 : dictGet m ab = 0) (hi : i ∈ scores) (hiz : i ≠ 0) :
    chooseLoop ab m scores (i :: rest) =
      ⟨dictSet m ab i, scores.erase i, rest,
        [scoresPromptMsg scores, askAbilityMsg ab]⟩ := by
  have hnz : dictGet (dictSet m ab i) ab ≠ 0 := by
    rw [dictGet_dictSet_self]
    exact hiz
  simp [chooseLoop, h0, hi, chooseLoop_skip ab _ _ rest hnz]

theorem chooseLoop_frame : ∀ (inputs : List Int) (ab : String)
    (m : List (String × Int)) (scores : List Int) (k : String), k ≠ ab →
    dictGet (chooseLoop ab m scores inputs).m k = dictGet m k := by
  intro inputs
  induction inputs with
  | nil =>
    intro ab m scores k _
    by_cases h : dictGet m ab = 0 <;> simp [chooseLoop, h]
  | cons i rest ih =>
    intro ab m scores k hk
    by_cases h0 : dictGet m ab = 0
    · by_cases hi : i ∈ scores
      · simp only [chooseLoop, h0, hi, if_true]
        rw [ih ab (dictSet m ab i) (scores.erase i) k hk]
        exact dictGet_dictSet_ne m ab k i hk
      · simp only [chooseLoop, h0, hi, if_true, if_false]
        exact ih ab m scores k hk
    · simp [chooseLoop, h0]

theorem assignAll_preserve_nonzero : ∀ (ks : List String) (m : List (String × Int))
    (scores inputs : List Int) (k : String), dictGet m k ≠ 0 →
    dictGet (assignAll ks m scores inputs).m k = dictGet m k := by
  intro ks
  induction ks with
  | nil => intro m scores inputs k _; rfl
  | cons ab ks ih =>
    intro m scores inputs k h
    by_cases hab : k = ab
    · subst hab
      simp only [assignAll, chooseLoop_skip k m scores inputs h]
      exact ih m scores inputs k h
    · simp only [assignAll]
      rw [ih _ _ _ k (by rw [chooseLoop_frame inputs ab m scores k hab]; exact h)]
      exact chooseLoop_frame inputs ab m scores k hab

theorem assignAll_complete : ∀ (ks : List String) (m : List (String × Int))
    (scores inputs : List Int), ks.Nodup → (∀ k ∈ ks, dictGet m k = 0) →
    List.Perm inputs scores → (∀ s ∈ scores, s ≠ 0) → ks.length = scores.length →
    (assignAll ks m scores inputs).scores = [] ∧
    (∀ k ∈ ks, dictGet (assignAll ks m scores inputs).m k ≠ 0) ∧
    (assignAll ks m scores inputs).inputs = [] := by
  intro ks
  induction ks with
  | nil =>
    intro m scores inputs _ _ hperm _ hlen
    have hs : scores = [] := List.length_eq_zero.mp hlen.symm
    subst hs
    have hi : inputs = [] := List.length_eq_zero.mp hperm.length_eq
    subst hi
    exact ⟨rfl, by simp, rfl⟩
  | cons ab ks ih =>
    intro m scores inputs hnd h0 hperm hnz hlen
    have hab0 : dictGet m ab = 0 := h0 ab (List.mem_cons_self _ _)
    cases inputs with
    | nil =>
      exact absurd (hperm.length_eq ▸ hlen) (by simp)
    | cons i rest =>
      have hi : i ∈ scores := hperm.mem_iff.mp (List.mem_cons_self _ _)
      have hinz : i ≠ 0 := hnz i hi
      have hv := chooseLoop_valid ab m scores i rest hab0 hi hinz
      have hrest : List.Perm rest (scores.erase i) :=
        List.Perm.cons_inv (hperm.trans (List.perm_cons_erase hi))
      have h0n : ∀ k ∈ ks, dictGet (dictSet m ab i) k = 0 := by
        intro k hk
        have hkab : k ≠ ab := fun he => (List.nodup_cons.mp hnd).1 (he ▸ hk)
        rw [dictGet_dictSet_ne m ab k i hkab]
        exact h0 k (List.mem_cons_of_mem _ hk)
      have hnzn : ∀ s ∈ scores.erase i, s ≠ 0 :=
        fun s hs => hnz s (List.mem_of_mem_erase hs)
      have hlenn : ks.length = (scores.erase i).length := by
        rw [List.length_erase_of_mem hi]
        have : ks.length + 1 = scores.length := by simpa using hlen
        omega
      obtain ⟨c1, c2, c3⟩ := ih (dictSet m ab i) (scores.erase i) rest
        (List.nodup_cons.mp hnd).2 h0n hrest hnzn hlenn
      have er : assignAll (ab :: ks) m scores (i :: rest) =
          ⟨(assignAll ks (dictSet m ab i) (scores.erase i) rest).m,
           (assignAll ks (dictSet m ab i) (scores.erase i) rest).scores,
           (assignAll ks (dictSet m ab i) (scores.erase i) rest).inputs,
           (chooseLoop ab m scores (i :: rest)).out ++
             (assignAll ks (dictSet m ab i) (scores.erase i) rest).out⟩ := by
        simp only [assignAll, hv]
      rw [er]
      refine ⟨c1, ?_, c3⟩
      intro k hk
      rcases List.mem_cons.mp hk with he | he
      · subst he
        have habn : dictGet (dictSet m k i) k ≠ 0 := by
          rw [dictGet_dictSet_self]
          exact hinz
        rw [assignAll_preserve_nonzero ks (dictSet m k i) (scores.erase i) rest k habn]
        exact habn
      · exact c2 k he

/-- C8: in the interactive mode of set_abilities: a selection absent from
the remaining candidate list leaves the abilities dict and the candidate
list unchanged and re-prompts after "Invalid choice!"; a selection present
in the list (and nonzero, as every generated score is) is stored for the
current ability and exactly one occurrence of it is removed from the list;
and with a six-element pool of nonzero scores and six valid selections
(a permutation of the pool), every ability ends nonzero, the pool ends
empty and the whole input script is consumed. -/
theorem C8_interactive_assignment :
    (∀ (ab : String) (m : List (String × Int)) (scores : List Int) (i : Int)
      (rest : List Int), dictGet m ab = 0 → i ∉ scores →
      (chooseLoop ab m scores (i :: rest)).m = (chooseLoop ab m scores rest).m ∧
      (chooseLoop ab m scores (i :: rest)).scores =
        (chooseLoop ab m scores rest).scores ∧
      (chooseLoop ab m scores (i :: rest)).out = scoresPromptMsg scores ::
        askAbilityMsg ab :: invalidChoiceMsg :: (chooseLoop ab m scores rest).out) ∧
    (∀ (ab : String) (m : List (String × Int)) (scores : List Int) (i : Int)
      (rest : List Int), dictGet m ab = 0 → i ∈ scores → i ≠ 0 →
      chooseLoop ab m scores (i :: rest) =
        ⟨dictSet m ab i, scores.erase i, rest,
          [scoresPromptMsg scores, askAbilityMsg ab]⟩ ∧
      dictGet (dictSet m ab i) ab = i) ∧
    (∀ (m : List (String × Int)) (scores inputs : List Int),
      (∀ k ∈ abilityNames, dictGet m k = 0) → List.Perm inputs scores →
      (∀ s ∈ scores, s ≠ 0) → scores.length = 6 →
      (assignAll abilityNames m scores inputs).scores = [] ∧
      (∀ k ∈ abilityNames, dictGet (assignAll abilityNames m scores inputs).m k ≠ 0) ∧
      (assignAll abilityNames m scores inputs).inputs = []) := by
  refine ⟨?_, ?_, ?_⟩
  · intro ab m scores i rest h0 hi
    rw [chooseLoop_invalid ab m scores i rest h0 hi]
    exact ⟨rfl, rfl, rfl⟩
  · intro ab m scores i rest h0 hi hiz
    exact ⟨chooseLoop_valid ab m scores i rest h0 hi hiz, dictGet_dictSet_self m ab i⟩
  · intro m scores inputs h0 hperm hnz hlen
    exact assignAll_complete abilityNames m scores inputs (by decide) h0 hperm hnz
      (by rw [hlen]; rfl)

theorem C8_interactive_assignment_witness :
    (∀ k ∈ abilityNames, dictGet Player.init.abilities k = 0) ∧
    (assignAll abilityNames Player.init.abilities
      ([10, 12, 14, 14, 16, 18] : List Int) [18, 16, 14, 14, 12, 10]).scores = [] ∧
    (∀ k ∈ abilityNames, dictGet (assignAll abilityNames Player.init.abilities
      ([10, 12, 14, 14, 16, 18] : List Int) [18, 16, 14, 14, 12, 10]).m k ≠ 0) :=
  ⟨by decide,
    (C8_interactive_assignment.2.2 Player.init.abilities [10, 12, 14, 14, 16, 18]
      [18, 16, 14, 14, 12, 10] (by decide) (by decide) (by decide) rfl).1,
    (C8_interactive_assignment.2.2 Player.init.abilities [10, 12, 14, 14, 16, 18]
      [18, 16, 14, 14, 12, 10] (by decide) (by decide) (by decide) rfl).2.1⟩

/-- C10: set_abilities(randomize=False) only prompts for abilities whose
current value is 0: the per-ability loop returns immediately (no state
change, no input consumed, nothing printed) when the value is nonzero, and
any ability nonzero before the call keeps its value across the whole call. -/
theorem C10_skip_nonzero :
    (∀ (ab : String) (m : List (String × Int)) (scores inputs : List Int),
      dictGet m ab ≠ 0 → chooseLoop ab m scores inputs = ⟨m, scores, inputs, []⟩) ∧
    (∀ (p : Player) (r : RNG) (inputs : List Int) (k : String),
      dictGet p.abilities k ≠ 0 →
      dictGet ((Player.set_abilities p false r inputs).1).abilities k =
        dictGet p.abilities k) := by
  refine ⟨chooseLoop_skip, ?_⟩
  intro p r inputs k h
  have e : ((Player.set_abilities p false r inputs).1).abilities =
      (assignAll (p.abilities.map Prod.fst) p.abilities
        (generate_scores r 6).1 inputs).m := rfl
  rw [e, assignAll_preserve_nonzero _ _ _ _ k h]

theorem C10_skip_nonzero_witness :
    dictGet p10.abilities "charisma" ≠ 0 ∧
    chooseLoop "charisma" p10.abilities [3] [7] = ⟨p10.abilities, [3], [7], []⟩ :=
  ⟨by decide, C10_skip_nonzero.1 "charisma" p10.abilities [3] [7] (by decide)⟩
